import Mathlib

/-!
Verification development for the GOP-indexed on-demand video decoder core
(`GopDecoderUtils.hpp`, `ThreadPool.hpp`, `PyNvGopDemuxer.cpp`,
`PyNvSampleReader.cpp`).

The C++ functions are shallowly embedded as total Lean functions:
machine `int`/`int64_t` values become `Int` (no overflow is exercised by the
claims), byte buffers become `List Nat` (one entry per byte), a possibly-null
packet pointer becomes `Option (List Nat)`, a C++ `throw` becomes an
`Except` error value, and an out-of-bounds read (undefined behaviour in the
source) is modelled by a guarded access that yields no value / a dedicated
error constructor.
-/

/-- FFmpeg codec identifiers, restricted to the cases the source
distinguishes: `AV_CODEC_ID_H264`, `AV_CODEC_ID_HEVC`, `AV_CODEC_ID_AV1`,
and any other codec id (`other`). -/
inductive CodecId where
  | h264 : CodecId
  | hevc : CodecId
  | av1 : CodecId
  | other : Nat → CodecId
deriving DecidableEq

/-- The codec families the classifier supports (all others are a hard
`std::domain_error` in the source). -/
def CodecId.isSupported : CodecId → Bool
  | .h264 => true
  | .hevc => true
  | .av1 => true
  | .other _ => false

/-- `AV_PKT_FLAG_KEY` (FFmpeg): bit 0 of the demuxer flag word. -/
def AV_PKT_FLAG_KEY : Nat := 1

/-- Errors the classifier can raise: the `std::domain_error` for an
unsupported codec, or an out-of-bounds byte read (undefined behaviour in
the C++, surfaced as an explicit error in the total embedding). -/
inductive KFError where
  | unsupportedCodec : KFError
  | oobRead : KFError
deriving DecidableEq

/-- The byte holding the NAL-unit header in the H.264/HEVC branches of the
source: `pVideo[2] == 1 ? pVideo[3] : pVideo[4]`. -/
def nalHeaderByte (p : List Nat) : Option Nat :=
  match p.get? 2 with
  | none => none
  | some b2 => if b2 = 1 then p.get? 3 else p.get? 4

/-- Embedding of `iskeyFrame(codec_id, pVideo, demux_flags)` from
`GopDecoderUtils.hpp`: computes the per-family parameter-set test `bPS`
and returns `(demux_flags & AV_PKT_FLAG_KEY) && bPS`; unsupported codecs
throw `std::domain_error`. -/
def iskeyFrame (codec_id : CodecId) (pVideo : Option (List Nat)) (demux_flags : Nat) :
    Except KFError Bool :=
  match pVideo with
  | none => .ok false
  | some p =>
    match codec_id with
    | .hevc =>
      match nalHeaderByte p with
      | none => .error .oobRead
      | some b =>
        let nal_unit_type := b >>> 1
        let bPS := decide (nal_unit_type = 32 ∨ nal_unit_type = 33 ∨ nal_unit_type = 34 ∨
          nal_unit_type = 39 ∨ nal_unit_type = 40)
        .ok (decide (demux_flags &&& AV_PKT_FLAG_KEY ≠ 0) && bPS)
    | .h264 =>
      match nalHeaderByte p with
      | none => .error .oobRead
      | some b =>
        let nal_unit_type := b &&& 0x1f
        let bPS := decide (nal_unit_type = 6 ∨ nal_unit_type = 7 ∨ nal_unit_type = 8 ∨
          nal_unit_type = 9)
        .ok (decide (demux_flags &&& AV_PKT_FLAG_KEY ≠ 0) && bPS)
    | .av1 =>
      match p.get? 0 with
      | none => .error .oobRead
      | some obu_header =>
        let obu_type := (obu_header >>> 3) &&& 0x0F
        let bPS := decide (obu_type = 1)
        .ok (decide (demux_flags &&& AV_PKT_FLAG_KEY ≠ 0) && bPS)
    | .other _ => .error .unsupportedCodec

/-- Embedding of `hasKeyFrameNalType(codec_id, pVideo)` from
`GopDecoderUtils.hpp`: the flag-less unit-type-only predicate. -/
def hasKeyFrameNalType (codec_id : CodecId) (pVideo : Option (List Nat)) :
    Except KFError Bool :=
  match pVideo with
  | none => .ok false
  | some p =>
    match codec_id with
    | .hevc =>
      match nalHeaderByte p with
      | none => .error .oobRead
      | some b =>
        let nal_unit_type := b >>> 1
        .ok (decide (nal_unit_type = 32 ∨ nal_unit_type = 33 ∨ nal_unit_type = 34 ∨
          nal_unit_type = 39 ∨ nal_unit_type = 40))
    | .h264 =>
      match nalHeaderByte p with
      | none => .error .oobRead
      | some b =>
        let nal_unit_type := b &&& 0x1f
        .ok (decide (nal_unit_type = 6 ∨ nal_unit_type = 7 ∨ nal_unit_type = 8 ∨
          nal_unit_type = 9))
    | .av1 =>
      match p.get? 0 with
      | none => .error .oobRead
      | some obu_header =>
        let obu_type := (obu_header >>> 3) &&& 0x0F
        .ok (decide (obu_type = 1))
    | .other _ => .error .unsupportedCodec

/-- C8. For every supported codec family, non-null packet and flag word,
`iskeyFrame` returns `true` exactly when `hasKeyFrameNalType` returns
`true` and the container key-frame flag bit is set; for an unsupported
codec family both predicates raise the domain error. -/
theorem iskeyFrame_eq_hasKeyFrameNalType_and_flag (codec_id : CodecId)
    (p : List Nat) (demux_flags : Nat) :
    (codec_id.isSupported = true →
      (iskeyFrame codec_id (some p) demux_flags = .ok true ↔
        (hasKeyFrameNalType codec_id (some p) = .ok true ∧
          demux_flags &&& AV_PKT_FLAG_KEY ≠ 0))) ∧
    (codec_id.isSupported = false →
      iskeyFrame codec_id (some p) demux_flags = .error .unsupportedCodec ∧
      hasKeyFrameNalType codec_id (some p) = .error .unsupportedCodec) := by
  constructor
  · intro hsupp
    cases codec_id with
    | h264 =>
      simp only [iskeyFrame, hasKeyFrameNalType]
      cases h : nalHeaderByte p with
      | none =>
        constructor
        · intro h'; exact absurd h' (by simp)
        · rintro ⟨h', _⟩; exact absurd h' (by simp)
      | some b =>
        simp only [Except.ok.injEq, Bool.and_eq_true, decide_eq_true_eq]
        tauto
    | hevc =>
      simp only [iskeyFrame, hasKeyFrameNalType]
      cases h : nalHeaderByte p with
      | none =>
        constructor
        · intro h'; exact absurd h' (by simp)
        · rintro ⟨h', _⟩; exact absurd h' (by simp)
      | some b =>
        simp only [Except.ok.injEq, Bool.and_eq_true, decide_eq_true_eq]
        tauto
    | av1 =>
      simp only [iskeyFrame, hasKeyFrameNalType]
      cases h : p.get? 0 with
      | none =>
        constructor
        · intro h'; exact absurd h' (by simp)
        · rintro ⟨h', _⟩; exact absurd h' (by simp)
      | some b =>
        simp only [Except.ok.injEq, Bool.and_eq_true, decide_eq_true_eq]
        tauto
    | other n => simp [CodecId.isSupported] at hsupp
  · intro hunsupp
    cases codec_id with
    | h264 => simp [CodecId.isSupported] at hunsupp
    | hevc => simp [CodecId.isSupported] at hunsupp
    | av1 => simp [CodecId.isSupported] at hunsupp
    | other n => exact ⟨rfl, rfl⟩

/-- C8 witness: the relation instantiated on an H.264 SPS packet with the
container key-frame flag set, and on an unsupported codec id. -/
theorem iskeyFrame_eq_hasKeyFrameNalType_and_flag_witness :
    iskeyFrame .h264 (some [0, 0, 1, 7, 0]) 1 = .ok true ∧
    iskeyFrame (.other 90) (some [0, 0, 1, 7, 0]) 1 = .error .unsupportedCodec := by
  constructor
  · exact ((iskeyFrame_eq_hasKeyFrameNalType_and_flag .h264 [0, 0, 1, 7, 0] 1).1
      (by decide)).2 ⟨rfl, by decide⟩
  · exact ((iskeyFrame_eq_hasKeyFrameNalType_and_flag (.other 90) [0, 0, 1, 7, 0] 1).2
      (by decide)).1

/-- Insert one `(pts, is_key_frame)` pair into an already-sorted run;
building block of the embedding of
`std::sort(pts_keyFrame_pair.begin(), .end(), [](a, b){ return a.first < b.first; })`.
(`std::sort` only guarantees a permutation ordered by the comparator; an
insertion sort computes one such permutation.) -/
def insertPair (p : Int × Bool) : List (Int × Bool) → List (Int × Bool)
  | [] => [p]
  | q :: t => if p.1 < q.1 then p :: q :: t else q :: insertPair p t

/-- Sort of the `(pts, is_key_frame)` vector by timestamp. -/
def sortPairs : List (Int × Bool) → List (Int × Bool)
  | [] => []
  | p :: t => insertPair p (sortPairs t)

/-- The index-collecting walk of `parse_gop_start_idx`: starting at frame
index `i`, record the index of every pair whose key-frame flag is set. -/
def keyIdxFrom (i : Int) : List (Int × Bool) → List Int
  | [] => []
  | p :: t => if p.2 then i :: keyIdxFrom (i + 1) t else keyIdxFrom (i + 1) t

/-- The one error `parse_gop_start_idx` can throw after demuxing:
`std::out_of_range("[ERROR] The video must have at least one GOP")`. -/
inductive GopError where
  | emptyVideo : GopError
deriving DecidableEq

/-- Embedding of `parse_gop_start_idx` from `GopDecoderUtils.hpp`,
starting from the demultiplexed `(timestamp, is_key_frame)` pairs the
demux loop collects (the loop body feeds each packet through `iskeyFrame`;
the claims quantify over the resulting pair sequence, so the embedding
takes it as input).  The source sorts the pairs by timestamp, records
every sorted index whose flag is set, appends the sentinel
`current_frame_idx` (the number of pairs), and only then checks
`gop_start_idx.size() <= 0`. -/
def parse_gop_start_idx (pts_keyFrame_pair : List (Int × Bool)) :
    Except GopError (List Int) :=
  let sorted := sortPairs pts_keyFrame_pair
  let gop_start_idx := keyIdxFrom 0 sorted ++ [(sorted.length : Int)]
  if gop_start_idx.length ≤ 0 then .error .emptyVideo else .ok gop_start_idx

/-- Index returned by `std::upper_bound(l.begin(), l.end(), x)` on a list
sorted ascending: the first position whose element is strictly greater
than `x` (linear form of the binary search; extensionally equal on the
sorted lists the source applies it to). -/
def upperBoundIdx (l : List Int) (x : Int) : Nat :=
  match l with
  | [] => 0
  | a :: t => if x < a then 0 else upperBoundIdx t x + 1

/-- Errors of `parse_gop_length`: the two `std::out_of_range` throws of
the source, plus `oobAccess` for the undefined behaviour of dereferencing
`back()` of an empty vector or an iterator past the end. -/
inductive GopLenError where
  | outOfRange : GopLenError
  | noGop : GopLenError
  | oobAccess : GopLenError
deriving DecidableEq

/-- The element found by `upperBoundIdx` is strictly greater than the
probe. -/
theorem upperBoundIdx_get_gt (l : List Int) (x v : Int)
    (h : l.get? (upperBoundIdx l x) = some v) : x < v := by
  induction l with
  | nil => simp [upperBoundIdx] at h
  | cons a t ih =>
    simp only [upperBoundIdx] at h
    by_cases hx : x < a
    · rw [if_pos hx] at h
      simp only [List.get?] at h
      cases h
      exact hx
    · rw [if_neg hx] at h
      simp only [List.get?] at h
      exact ih h

/-- Dropping a prefix never lengthens a list (termination measure of the
`parse_gop_length` loop). -/
theorem length_dropWhile_le_self {α : Type} (p : α → Bool) (l : List α) :
    (List.dropWhile p l).length ≤ l.length := by
  induction l with
  | nil => simp [List.dropWhile]
  | cons a t ih =>
    rw [List.dropWhile_cons]
    by_cases h : p a
    · simp only [h, if_true]
      exact Nat.le_succ_of_le ih
    · simp [h]

/-- The loop of `parse_gop_length`: for the current requested id, find the
next boundary strictly above it (`std::upper_bound`), fail if it is the
first boundary, emit the enclosing GOP's length and first frame, and jump
the iterator to the first requested id not below the next boundary
(`std::lower_bound`, which on the sorted request list lands on the suffix
obtained by dropping every id below that boundary). -/
def gopLenLoop (gop_start_id_list : List Int) : List Int → Except GopLenError (List Int × List Int)
  | [] => .ok ([], [])
  | x :: t =>
    let j := upperBoundIdx gop_start_id_list x
    if j = 0 then .error .noGop
    else
      match gop_start_id_list.get? j, gop_start_id_list.get? (j - 1) with
      | some v, some p =>
        -- `lower_bound` over the whole sorted request list lands on the
        -- suffix with every id below `v` dropped; since `x < v` always
        -- holds (`upperBoundIdx_get_gt`), dropping from `t` and from
        -- `x :: t` coincide.
        match gopLenLoop gop_start_id_list (List.dropWhile (fun y => decide (y < v)) t) with
        | .ok (lens, firsts) => .ok ((v - p) :: lens, p :: firsts)
        | .error e => .error e
      | _, _ => .error .oobAccess
  termination_by l => l.length
  decreasing_by
    simp only [List.length_cons]
    exact Nat.lt_succ_of_le (length_dropWhile_le_self _ _)

/-- Embedding of `parse_gop_length` from `GopDecoderUtils.hpp`.  Returns
the pair `(gop_length, first_frame_ids)` the source produces (the second
through an out-parameter). -/
def parse_gop_length (gop_start_id_list : List Int) (sorted_frame_ids : List Int) :
    Except GopLenError (List Int × List Int) :=
  match sorted_frame_ids.getLast?, gop_start_id_list.getLast? with
  | some fb, some gb =>
    if gb ≤ fb then .error .outOfRange
    else gopLenLoop gop_start_id_list sorted_frame_ids
  | _, _ => .error .oobAccess

/-- Number of consecutive-boundary intervals `[gop[j], gop[j+1])` of a
boundary table that contain a given frame id (the claim's "belongs to
exactly one GOP" is this count being 1). -/
def gopIntervalCount (frame_id : Int) : List Int → Nat
  | a :: b :: t =>
    (if a ≤ frame_id ∧ frame_id < b then 1 else 0) + gopIntervalCount frame_id (b :: t)
  | _ => 0

/-- C1 (code bug evidence). On a demultiplexed sequence with no key-frame
pair at all, `parse_gop_start_idx` returns the sentinel-only table `[2]`
instead of throwing the "empty video" error: the sentinel is pushed
before the `size() <= 0` check, so the check can never fire. -/
theorem parse_gop_start_idx_no_key_frame_returns_sentinel :
    parse_gop_start_idx [(0, false), (1, false)] = .ok [2] := rfl

/-- C7. For a constant-frame-rate stream with key frames at ids
`{0, 4, 8}` and 10 total frames, `parse_gop_start_idx` yields the
boundaries `[0, 4, 8, 10]`, and `parse_gop_length` maps requested frame 6
to the enclosing GOP with first frame 4 and length 4. -/
theorem parse_gop_seek_determinism :
    parse_gop_start_idx
        [(0, true), (1, false), (2, false), (3, false), (4, true), (5, false),
         (6, false), (7, false), (8, true), (9, false)] = .ok [0, 4, 8, 10] ∧
    parse_gop_length [0, 4, 8, 10] [6] = .ok ([4], [4]) := by
  refine ⟨rfl, ?_⟩
  simp only [parse_gop_length, gopLenLoop, upperBoundIdx, List.getLast?, List.dropWhile]
  norm_num

/-- C3 counterexample. For the demultiplexed sequence whose only key
frame is the second packet, the boundary table is `[1, 2]`; frame id 0
lies in `[0, total)` but belongs to no consecutive-boundary interval, so
the claimed partition of `[0, total)` fails whenever the first observed
key frame is not at index 0. -/
theorem parse_gop_start_idx_partition_counterexample :
    parse_gop_start_idx [(0, false), (1, true)] = .ok [1, 2] ∧
    gopIntervalCount 0 [1, 2] = 0 := ⟨rfl, rfl⟩

/-- In a `(· ≤ ·)`-chained list every member is bounded by the last
element. -/
theorem chain'_le_getLast : ∀ (l : List Int) (x : Int), List.Chain' (· ≤ ·) l → x ∈ l →
    ∀ b : Int, l.getLast? = some b → x ≤ b := by
  intro l
  induction l with
  | nil => intro x _ hx; cases hx
  | cons a t ih =>
    intro x hc hx b hb
    cases t with
    | nil =>
      have hxa : x = a := by simpa using hx
      have hba : a = b := by simpa using hb
      omega
    | cons c t' =>
      have hb' : (c :: t').getLast? = some b := by rwa [List.getLast?_cons_cons] at hb
      have hcc := List.chain'_cons.mp hc
      rcases List.mem_cons.mp hx with h | h
      · subst h
        have hcb : c ≤ b := ih c hcc.2 (List.mem_cons_self c t') b hb'
        exact le_trans hcc.1 hcb
      · exact ih x hcc.2 h b hb'

/-- C4. On a non-empty sorted request list containing an id at or past the
last boundary, `parse_gop_length` fails with the out-of-range
`std::out_of_range` throw rather than clamping the request. -/
theorem parse_gop_length_out_of_range_error (gop_start_id_list sorted_frame_ids : List Int)
    (hsorted : List.Chain' (· ≤ ·) sorted_frame_ids)
    (x : Int) (hx : x ∈ sorted_frame_ids)
    (g : Int) (hg : gop_start_id_list.getLast? = some g)
    (hover : g ≤ x) :
    parse_gop_length gop_start_id_list sorted_frame_ids = .error .outOfRange := by
  have hne : sorted_frame_ids ≠ [] := by rintro rfl; cases hx
  have h1 : sorted_frame_ids.getLast?.isSome := List.getLast?_isSome.mpr hne
  obtain ⟨fb, hfb⟩ := Option.isSome_iff_exists.mp h1
  have hxfb : x ≤ fb := chain'_le_getLast _ _ hsorted hx _ hfb
  simp only [parse_gop_length, hfb, hg]
  rw [if_pos (le_trans hover hxfb)]

/-- C4 witness: `parse_gop_length` on boundaries `[0, 2]` and the request
`[5]` (5 ≥ last boundary 2) reports the out-of-range error. -/
theorem parse_gop_length_out_of_range_error_witness :
    parse_gop_length [0, 2] [5] = .error .outOfRange :=
  parse_gop_length_out_of_range_error [0, 2] [5] (List.chain'_singleton 5) 5
    (List.mem_singleton.mpr rfl) 2 rfl (by decide)

/-- Every index recorded by the key-frame walk starting at `i` lies in
`[i, i + length)`. -/
theorem keyIdxFrom_mem_bounds : ∀ (l : List (Int × Bool)) (i x : Int),
    x ∈ keyIdxFrom i l → i ≤ x ∧ x < i + l.length := by
  intro l
  induction l with
  | nil => intro i x hx; cases hx
  | cons p t ih =>
    intro i x hx
    simp only [keyIdxFrom] at hx
    by_cases hp : p.2
    · rw [if_pos hp] at hx
      rcases List.mem_cons.mp hx with h | h
      · subst h
        simp only [List.length_cons]
        constructor
        · exact le_refl x
        · push_cast
          omega
      · have := ih (i + 1) x h
        simp only [List.length_cons]
        push_cast at this ⊢
        omega
    · rw [if_neg hp] at hx
      have := ih (i + 1) x hx
      simp only [List.length_cons]
      push_cast at this ⊢
      omega

/-- The key-frame walk produces a strictly increasing index list. -/
theorem keyIdxFrom_chain' : ∀ (l : List (Int × Bool)) (i : Int),
    List.Chain' (· < ·) (keyIdxFrom i l) := by
  intro l
  induction l with
  | nil => intro i; exact List.chain'_nil
  | cons p t ih =>
    intro i
    simp only [keyIdxFrom]
    by_cases hp : p.2
    · rw [if_pos hp]
      refine List.chain'_cons'.mpr ⟨?_, ih (i + 1)⟩
      intro y hy
      have hmem : y ∈ keyIdxFrom (i + 1) t := List.mem_of_mem_head? hy
      have := keyIdxFrom_mem_bounds t (i + 1) y hmem
      omega
    · rw [if_neg hp]
      exact ih (i + 1)

/-- `insertPair` adds exactly one element. -/
theorem insertPair_length (p : Int × Bool) : ∀ (l : List (Int × Bool)),
    (insertPair p l).length = l.length + 1 := by
  intro l
  induction l with
  | nil => rfl
  | cons q t ih =>
    simp only [insertPair]
    by_cases h : p.1 < q.1
    · rw [if_pos h]; rfl
    · rw [if_neg h]
      simp only [List.length_cons, ih]

/-- The sort of the `(pts, key)` pairs preserves the frame count. -/
theorem sortPairs_length : ∀ (l : List (Int × Bool)), (sortPairs l).length = l.length := by
  intro l
  induction l with
  | nil => rfl
  | cons p t ih =>
    simp only [sortPairs, insertPair_length, ih, List.length_cons]

/-- A frame id strictly below every boundary of a strictly increasing
table lies in no consecutive-boundary interval. -/
theorem gopIntervalCount_eq_zero_of_lt_head : ∀ (t : List Int) (b fid : Int),
    List.Chain' (· < ·) (b :: t) → fid < b → gopIntervalCount fid (b :: t) = 0 := by
  intro t
  induction t with
  | nil => intro b fid _ _; rfl
  | cons c t' ih =>
    intro b fid hc hfid
    have hcc := List.chain'_cons.mp hc
    simp only [gopIntervalCount]
    rw [if_neg (by omega), ih c fid hcc.2 (by omega)]

/-- A frame id between the first and last boundary of a strictly
increasing table lies in exactly one consecutive-boundary interval. -/
theorem gopIntervalCount_eq_one_of_mem_range : ∀ (t : List Int) (a fid b : Int),
    List.Chain' (· < ·) (a :: t) → a ≤ fid → (a :: t).getLast? = some b → fid < b →
    gopIntervalCount fid (a :: t) = 1 := by
  intro t
  induction t with
  | nil =>
    intro a fid b _ hle hb hlt
    have hba : a = b := by simpa using hb
    omega
  | cons c t' ih =>
    intro a fid b hc hle hb hlt
    have hcc := List.chain'_cons.mp hc
    have hb' : (c :: t').getLast? = some b := by rwa [List.getLast?_cons_cons] at hb
    simp only [gopIntervalCount]
    by_cases hfc : fid < c
    · rw [if_pos ⟨hle, hfc⟩, gopIntervalCount_eq_zero_of_lt_head t' c fid hcc.2 hfc]
    · rw [if_neg (by omega), ih c fid b hcc.2 (by omega) hb' hlt]

/-- C3 (amended). For every demultiplexed input sequence, the returned
boundary table is non-empty and strictly increasing, its last entry is the
total frame count, its first entry is the index of the first observed key
frame (when one exists), and every frame id from the first boundary up to
the total frame count lies in exactly one consecutive-boundary interval.
(The original claim's partition of all of `[0, total)` fails whenever the
first observed key frame is not at index 0.) -/
theorem parse_gop_start_idx_partition_amended (pairs : List (Int × Bool)) (gop : List Int)
    (h : parse_gop_start_idx pairs = .ok gop) :
    gop ≠ [] ∧
    List.Chain' (· < ·) gop ∧
    gop.getLast? = some ((pairs.length : Int)) ∧
    (∀ k, (keyIdxFrom 0 (sortPairs pairs)).head? = some k → gop.head? = some k) ∧
    (∀ fid g0 : Int, gop.head? = some g0 → g0 ≤ fid → fid < (pairs.length : Int) →
      gopIntervalCount fid gop = 1) := by
  have hgop : gop = keyIdxFrom 0 (sortPairs pairs) ++ [(((sortPairs pairs).length : Nat) : Int)] := by
    simp only [parse_gop_start_idx] at h
    rw [if_neg (by simp)] at h
    cases h
    rfl
  have hlen : (((sortPairs pairs).length : Nat) : Int) = (pairs.length : Int) := by
    rw [sortPairs_length]
  have hne : gop ≠ [] := by
    rw [hgop]
    simp
  have hchain : List.Chain' (· < ·) gop := by
    rw [hgop]
    refine List.chain'_append.mpr ⟨keyIdxFrom_chain' _ 0, List.chain'_singleton _, ?_⟩
    intro x hx y hy
    have hxmem : x ∈ keyIdxFrom 0 (sortPairs pairs) := List.mem_of_mem_getLast? hx
    have hxb := keyIdxFrom_mem_bounds _ 0 x hxmem
    have hy' : (((sortPairs pairs).length : Nat) : Int) = y := by simpa using hy
    omega
  have hlast : gop.getLast? = some ((pairs.length : Int)) := by
    rw [hgop, List.getLast?_concat, hlen]
  refine ⟨hne, hchain, hlast, ?_, ?_⟩
  · intro k hk
    rw [hgop, List.head?_append, hk]
    rfl
  · intro fid g0 hhead hle hlt
    cases hg : gop with
    | nil => exact absurd hg hne
    | cons a t =>
      have hg0 : a = g0 := by
        rw [hg] at hhead
        simpa using hhead
      subst hg0
      rw [hg] at hchain hlast
      exact gopIntervalCount_eq_one_of_mem_range t a fid (pairs.length : Int)
        hchain hle hlast hlt

/-- C3 amended witness: for the sequence whose only key frame is the
second packet the table is `[1, 2]`, and frame id 1 (from the first
boundary up to the total count 2) lies in exactly one interval. -/
theorem parse_gop_start_idx_partition_amended_witness :
    gopIntervalCount 1 [1, 2] = 1 :=
  ((parse_gop_start_idx_partition_amended [(0, false), (1, true)] [1, 2] rfl).2.2.2.2)
    1 1 rfl (by decide) (by decide)

/-- Association-list lookup (model of `std::unordered_map::find`). -/
def assocLookup {K V : Type} [DecidableEq K] (k : K) : List (K × V) → Option V
  | [] => none
  | (k', v) :: t => if k' = k then some v else assocLookup k t

/-- Association-list update-or-insert (model of `map[k] = v`). -/
def assocSet {K V : Type} [DecidableEq K] (k : K) (v : V) : List (K × V) → List (K × V)
  | [] => [(k, v)]
  | (k', v') :: t => if k' = k then (k, v) :: t else (k', v') :: assocSet k v t

/-- Association-list erase (model of `std::unordered_map::erase`). -/
def assocErase {K V : Type} [DecidableEq K] (k : K) : List (K × V) → List (K × V)
  | [] => []
  | (k', v') :: t => if k' = k then t else (k', v') :: assocErase k t

/-- State of the `LFUCache` template of `GopDecoderUtils.hpp`: the
`keyVal` map (key to value and frequency), the `freqLists` map
(frequency to the list of keys at that frequency, front = eviction
candidate), `capacity` and `minFreq`.  The `pos` map of the source only
caches each key's iterator into its frequency list; in the list model the
erase-at-iterator becomes an erase-by-key, so `pos` carries no extra
state. -/
structure LFUCache (Key Value : Type) where
  capacity : Nat
  minFreq : Nat
  keyVal : List (Key × Value × Nat)
  freqLists : List (Nat × List Key)

/-- The frequency list at frequency `f` (`freqLists[f]`, default-empty as
for `std::unordered_map::operator[]`). -/
def freqListAt {Key : Type} (fl : List (Nat × List Key)) (f : Nat) : List Key :=
  (assocLookup f fl).getD []

/-- The `LFUCache(int capacity)` constructor: empty maps, `minFreq = 0`. -/
def LFUCache.init {Key Value : Type} (capacity : Nat) : LFUCache Key Value :=
  ⟨capacity, 0, [], []⟩

/-- Embedding of `LFUCache::put` from `GopDecoderUtils.hpp`, branch for
branch: zero capacity returns unchanged; an existing key has its value
replaced and its frequency bumped (moving it between frequency lists,
advancing `minFreq` past an emptied list); a new key on a full cache
takes the eviction branch, which removes `freqLists[minFreq].front()`
from all maps and then returns — without inserting the new pair (the
source's early `return freqLists[minFreq].pop_front();`); a new key on a
non-full cache is appended with frequency 1 and `minFreq` reset to 1. -/
def LFUCache.put {Key Value : Type} [DecidableEq Key]
    (c : LFUCache Key Value) (key : Key) (value : Value) : LFUCache Key Value :=
  if c.capacity = 0 then c
  else
    match assocLookup key c.keyVal with
    | some (_, f) =>
      let keyVal := assocSet key (value, f + 1) c.keyVal
      let fl1 := assocSet f ((freqListAt c.freqLists f).erase key) c.freqLists
      let fl2 := assocSet (f + 1) (freqListAt fl1 (f + 1) ++ [key]) fl1
      let minFreq := if freqListAt fl2 c.minFreq = [] then c.minFreq + 1 else c.minFreq
      ⟨c.capacity, minFreq, keyVal, fl2⟩
    | none =>
      if c.keyVal.length = c.capacity then
        match (freqListAt c.freqLists c.minFreq).head? with
        | some delKey =>
          ⟨c.capacity, c.minFreq, assocErase delKey c.keyVal,
            assocSet c.minFreq ((freqListAt c.freqLists c.minFreq).tail) c.freqLists⟩
        | none => c  -- `front()` of an empty list is undefined behaviour in the source
      else
        ⟨c.capacity, 1, c.keyVal ++ [(key, (value, 1))],
          assocSet 1 (freqListAt c.freqLists 1 ++ [key]) c.freqLists⟩

/-- Embedding of `LFUCache::getSize`. -/
def LFUCache.getSize {Key Value : Type} (c : LFUCache Key Value) : Nat :=
  c.keyVal.length

/-- C2 (code bug evidence). On a capacity-1 cache already holding key 0,
`put` with the new key 1 evicts key 0 and returns without inserting key
1: afterwards the cache is empty (size 0, not the capacity 1) and the new
key is absent, contradicting the claimed evict-and-insert behaviour (and
the source's own step comments, which describe inserting the new pair
after the eviction). -/
theorem lfucache_put_full_loses_new_key :
    ((LFUCache.init 1 : LFUCache Nat Nat).put 0 10).getSize = 1 ∧
    (((LFUCache.init 1 : LFUCache Nat Nat).put 0 10).put 1 20).getSize = 0 ∧
    assocLookup 1 (((LFUCache.init 1 : LFUCache Nat Nat).put 0 10).put 1 20).keyVal = none := by
  decide

/-- Outcome of one queued task of a `ThreadRunner`: it either completes
or raises; a raised failure carries the captured `std::exception_ptr`
(`some e` for a capturable exception object, `none` when the pointer is
null so that `join` can only report the generic failure). -/
inductive TaskOutcome where
  | ok : TaskOutcome
  | fail : Option Nat → TaskOutcome
deriving DecidableEq

/-- The `ThreadRunner` state visible to `join`: the queued task outcomes
plus the captured-failure cell (`hasException`, `exceptionPtr`).  The
mutex/condition-variable machinery and the `busy` flag only sequence the
worker against the caller; `join`'s wait until `tasks.empty() && !busy`
is modelled by draining the queue before inspecting the failure cell. -/
structure ThreadRunnerState where
  tasks : List TaskOutcome
  hasException : Bool
  exceptionPtr : Option Nat

/-- One iteration of `ThreadRunner::threadLoop`: run the task; on a
failure store the captured exception and set `hasException` (a later
failure overwrites an earlier one, as in the source). -/
def runTask (s : ThreadRunnerState) (t : TaskOutcome) : ThreadRunnerState :=
  match t with
  | .ok => s
  | .fail e => { s with hasException := true, exceptionPtr := e }

/-- The worker loop having consumed every queued task (the state `join`
observes once `tasks.empty() && !busy` holds). -/
def ThreadRunner.drain (s : ThreadRunnerState) : ThreadRunnerState :=
  { s.tasks.foldl runTask s with tasks := [] }

/-- What `join` does after its wait: `normal` return, rethrow of the
captured exception, or the generic
`"Thread task failed with unknown exception"` error. -/
inductive JoinResult where
  | normal : JoinResult
  | raised : Nat → JoinResult
  | genericFailure : JoinResult
deriving DecidableEq

/-- Embedding of `ThreadRunner::join`: wait for the queue to drain, then
if a failure was captured, clear `hasException` and `exceptionPtr` and
rethrow the saved pointer (or throw the generic error if it is null). -/
def ThreadRunner.join (s : ThreadRunnerState) : JoinResult × ThreadRunnerState :=
  let d := ThreadRunner.drain s
  if d.hasException then
    match d.exceptionPtr with
    | some e => (.raised e, { d with hasException := false, exceptionPtr := none })
    | none => (.genericFailure, { d with hasException := false, exceptionPtr := none })
  else (.normal, d)

/-- Draining tasks that all complete leaves the state unchanged. -/
theorem foldl_runTask_all_ok : ∀ (l : List TaskOutcome) (s : ThreadRunnerState),
    (∀ t ∈ l, t = .ok) → l.foldl runTask s = s := by
  intro l
  induction l with
  | nil => intro s _; rfl
  | cons a t ih =>
    intro s h
    have ha : a = .ok := h a (List.mem_cons_self a t)
    subst ha
    exact ih s (fun t' ht' => h t' (List.mem_cons_of_mem _ ht'))

/-- C5. A runner whose queue holds a failing task (followed only by
completing tasks) has its captured failure re-raised by the next `join` —
as the original exception when the pointer was captured, as the generic
task failure when it is unknown — and the failure state cleared, so that
a second `join` run over any further batch of completing tasks returns
normally. -/
theorem threadrunner_join_propagates_failure_once
    (pre post : List TaskOutcome) (e : Option Nat) (s : ThreadRunnerState)
    (htasks : s.tasks = pre ++ .fail e :: post)
    (hpost : ∀ t ∈ post, t = .ok) :
    (ThreadRunner.join s).1 = (match e with
      | some x => JoinResult.raised x
      | none => JoinResult.genericFailure) ∧
    (ThreadRunner.join s).2.hasException = false ∧
    (ThreadRunner.join s).2.exceptionPtr = none ∧
    (∀ ts : List TaskOutcome, (∀ t ∈ ts, t = .ok) →
      (ThreadRunner.join { (ThreadRunner.join s).2 with tasks := ts }).1 = .normal) := by
  have hdrain : ThreadRunner.drain s =
      { s.tasks.foldl runTask s with tasks := [] } := rfl
  have hfold : s.tasks.foldl runTask s =
      { (pre.foldl runTask s) with hasException := true, exceptionPtr := e } := by
    rw [htasks, List.foldl_append, List.foldl_cons]
    exact foldl_runTask_all_ok post _ hpost
  have hd : ThreadRunner.drain s =
      { (pre.foldl runTask s) with hasException := true, exceptionPtr := e, tasks := [] } := by
    rw [hdrain, hfold]
  have hjoin : ThreadRunner.join s = ((match e with
      | some x => JoinResult.raised x
      | none => JoinResult.genericFailure),
      { (pre.foldl runTask s) with hasException := false, exceptionPtr := none, tasks := [] }) := by
    rw [ThreadRunner.join, hd]
    cases e with
    | none => rfl
    | some x => rfl
  refine ⟨?_, by rw [hjoin], by rw [hjoin], ?_⟩
  · rw [hjoin]
    cases e <;> rfl
  · intro ts hts
    rw [hjoin]
    have hfold2 := foldl_runTask_all_ok ts
      ({ tasks := ts, hasException := false, exceptionPtr := none } : ThreadRunnerState) hts
    simp [ThreadRunner.join, ThreadRunner.drain, hfold2]

/-- C5 witness: a runner whose single queued task failed with captured
exception 5 raises it on the first `join` and returns normally on a
second `join` with an empty batch. -/
theorem threadrunner_join_propagates_failure_once_witness :
    (ThreadRunner.join ⟨[.fail (some 5)], false, none⟩).1 = .raised 5 ∧
    (ThreadRunner.join
      { (ThreadRunner.join ⟨[.fail (some 5)], false, none⟩).2 with tasks := [] }).1 = .normal := by
  have h := threadrunner_join_propagates_failure_once [] [] (some 5)
    ⟨[.fail (some 5)], false, none⟩ rfl (by intro t ht; cases ht)
  exact ⟨h.1, h.2.2.2 [] (by intro t ht; cases ht)⟩

/-- A buffered async decode result (`DecodeResult` in
`PyNvSampleReader`): the request fingerprint it was produced for
(file-path list, frame-id list, color-format flag), the readiness flag,
the captured failure (`std::exception_ptr`, opaque token) and the decoded
frames (opaque tokens). -/
structure DecodeResult where
  file_path_list : List String
  frame_id_list : List Int
  as_bgr : Bool
  is_ready : Bool
  exception : Option Nat
  decoded_frames : List Nat
deriving DecidableEq

/-- Embedding of `PyNvSampleReader::validate_request`: size checks on
both lists, the color-format flag check, then the element-wise loop over
`i < filepaths.size()`.  (When the caller's two lists have different
lengths the source loop can read `frame_ids[i]` out of bounds; the model
compares the guarded accesses instead, which agree with the source on
every in-bounds input.) -/
def validate_request (result : DecodeResult) (filepaths : List String)
    (frame_ids : List Int) (as_bgr : Bool) : Bool :=
  if result.file_path_list.length ≠ filepaths.length ∨
      result.frame_id_list.length ≠ frame_ids.length then false
  else if result.as_bgr ≠ as_bgr then false
  else (List.range filepaths.length).all fun i =>
    decide (result.file_path_list.get? i = filepaths.get? i) &&
    decide (result.frame_id_list.get? i = frame_ids.get? i)

/-- Failure modes of `DecodeN12ToRGBAsyncGetBuffer`: the
empty-buffer/no-pending-task error, the internal not-ready error, the
rethrow of a captured decode failure, and the fingerprint mismatch
error. -/
inductive GetBufferError where
  | emptyBuffer : GetBufferError
  | notReady : GetBufferError
  | rethrown : Nat → GetBufferError
  | mismatch : GetBufferError
deriving DecidableEq

/-- Embedding of `PyNvSampleReader::DecodeN12ToRGBAsyncGetBuffer` over
the pipeline state `(has_pending_task, decode_result_queue)`: fail when
no task is pending and the slot is empty; otherwise pop the buffered
result (the blocking `pop_front` is modelled by requiring the awaited
result to be the queue's head — the queue holds at most one element),
check readiness, rethrow a captured failure, validate the fingerprint,
and only then hand out the frames. -/
def DecodeN12ToRGBAsyncGetBuffer (has_pending_task : Bool) (queue : List DecodeResult)
    (filepaths : List String) (frame_ids : List Int) (as_bgr : Bool) :
    Except GetBufferError (List Nat) :=
  if has_pending_task = false ∧ queue = [] then .error .emptyBuffer
  else
    match queue with
    | [] => .error .emptyBuffer
    | result :: _ =>
      if result.is_ready = false then .error .notReady
      else
        match result.exception with
        | some e => .error (.rethrown e)
        | none =>
          if validate_request result filepaths frame_ids as_bgr then
            .ok result.decoded_frames
          else .error .mismatch

/-- The fingerprint loop accepts exactly the componentwise-equal
requests (for equal-length caller lists). -/
theorem validate_request_eq_true_iff (r : DecodeResult) (fps : List String)
    (ids : List Int) (bgr : Bool) (hqlen : fps.length = ids.length) :
    validate_request r fps ids bgr = true ↔
      (r.file_path_list = fps ∧ r.frame_id_list = ids ∧ r.as_bgr = bgr) := by
  unfold validate_request
  constructor
  · intro h
    by_cases h1 : r.file_path_list.length ≠ fps.length ∨ r.frame_id_list.length ≠ ids.length
    · rw [if_pos h1] at h
      exact absurd h (by simp)
    · rw [if_neg h1] at h
      push_neg at h1
      by_cases h2 : r.as_bgr ≠ bgr
      · rw [if_pos h2] at h
        exact absurd h (by simp)
      · rw [if_neg h2] at h
        push_neg at h2
        rw [List.all_eq_true] at h
        refine ⟨?_, ?_, h2⟩
        · apply List.ext
          intro n
          by_cases hn : n < fps.length
          · have hh := h n (List.mem_range.mpr hn)
            simp only [Bool.and_eq_true, decide_eq_true_eq] at hh
            exact hh.1
          · have hn' : fps.length ≤ n := not_lt.mp hn
            rw [List.get?_eq_none.mpr (h1.1 ▸ hn'), List.get?_eq_none.mpr hn']
        · apply List.ext
          intro n
          by_cases hn : n < fps.length
          · have hh := h n (List.mem_range.mpr hn)
            simp only [Bool.and_eq_true, decide_eq_true_eq] at hh
            exact hh.2
          · have hn' : fps.length ≤ n := not_lt.mp hn
            have hn2 : ids.length ≤ n := hqlen ▸ hn'
            rw [List.get?_eq_none.mpr (h1.2 ▸ hn2), List.get?_eq_none.mpr hn2]
  · rintro ⟨hfp, hid, hbgr⟩
    rw [if_neg (by simp [hfp, hid]), if_neg (by simp [hbgr])]
    rw [List.all_eq_true]
    intro i _
    simp [hfp, hid]

/-- C6. With a ready, failure-free result buffered in the slot, the
retrieval returns the buffered frames when the caller's request equals
the stored fingerprint componentwise, and fails with the mismatch error
(returning no frames) whenever any component differs. -/
theorem getbuffer_fingerprint_validated (result : DecodeResult) (has_pending_task : Bool)
    (filepaths : List String) (frame_ids : List Int) (as_bgr : Bool)
    (hready : result.is_ready = true) (hexc : result.exception = none)
    (hqlen : filepaths.length = frame_ids.length) :
    (¬(result.file_path_list = filepaths ∧ result.frame_id_list = frame_ids ∧
        result.as_bgr = as_bgr) →
      DecodeN12ToRGBAsyncGetBuffer has_pending_task [result] filepaths frame_ids as_bgr =
        .error .mismatch) ∧
    ((result.file_path_list = filepaths ∧ result.frame_id_list = frame_ids ∧
        result.as_bgr = as_bgr) →
      DecodeN12ToRGBAsyncGetBuffer has_pending_task [result] filepaths frame_ids as_bgr =
        .ok result.decoded_frames) := by
  have hstep : DecodeN12ToRGBAsyncGetBuffer has_pending_task [result] filepaths frame_ids as_bgr =
      (if validate_request result filepaths frame_ids as_bgr then
        Except.ok result.decoded_frames
      else Except.error GetBufferError.mismatch) := by
    simp [DecodeN12ToRGBAsyncGetBuffer, hready, hexc]
  constructor
  · intro hne
    rw [hstep, if_neg]
    intro hv
    exact hne ((validate_request_eq_true_iff result filepaths frame_ids as_bgr hqlen).mp hv)
  · intro heq
    rw [hstep, if_pos]
    exact (validate_request_eq_true_iff result filepaths frame_ids as_bgr hqlen).mpr heq

/-- C6 witness: a ready result for files `["a"]`, frames `[0]`, RGB
order, retrieved with the same files but frame list `[1]`, fails with the
mismatch error; retrieved with the matching fingerprint it returns the
buffered frames. -/
theorem getbuffer_fingerprint_validated_witness :
    DecodeN12ToRGBAsyncGetBuffer true [⟨["a"], [0], false, true, none, [42]⟩]
      ["a"] [1] false = .error .mismatch ∧
    DecodeN12ToRGBAsyncGetBuffer true [⟨["a"], [0], false, true, none, [42]⟩]
      ["a"] [0] false = .ok [42] := by
  constructor
  · exact (getbuffer_fingerprint_validated ⟨["a"], [0], false, true, none, [42]⟩ true
      ["a"] [1] false rfl rfl rfl).1 (by simp)
  · exact (getbuffer_fingerprint_validated ⟨["a"], [0], false, true, none, [42]⟩ true
      ["a"] [0] false rfl rfl rfl).2 (by simp)

/-- Outcome of `PyNvGopDemuxer::SeekGopFirstFrameNoMap`: success with the
returned packet and resolved frame id, a `false` return (seek I/O
failure, null packet, or search point gone negative), a propagated
classifier exception, the VFR `std::domain_error`, or exhaustion of the
step budget (the source loop has no termination guarantee against an
adversarial container). -/
inductive SeekOutcome where
  | found : List Nat → Int → SeekOutcome
  | failed : SeekOutcome
  | thrown : KFError → SeekOutcome
  | vfrUnsupported : SeekOutcome
  | outOfFuel : SeekOutcome
deriving DecidableEq

/-- The `while (!found_key_frame && current_frame_to_seek >= 0)` loop of
`SeekGopFirstFrameNoMap`.  The container collaborator
(`TsFromFrameNumber` composed with `SeekWithTS` and `FrameNumFromTs`) is
abstracted as `seekWithTS : Int → Option (Option (List Nat) × Int)`,
mapping the current search frame to seek failure (`none`) or the pair of
the possibly-null returned packet and the resolved `frame_id_out`.  A
packet classified as a GOP start is accepted only when its frame id does
not exceed the original target; a later key frame retreats the search
point by one, a non-key packet jumps it to `frame_id_out - 1`. -/
def seekGopLoop (seekWithTS : Int → Option (Option (List Nat) × Int)) (codec_id : CodecId)
    (frame_id_to_seek : Int) : Nat → Int → SeekOutcome
  | 0, _ => .outOfFuel
  | fuel + 1, current_frame_to_seek =>
    if current_frame_to_seek < 0 then .failed
    else
      match seekWithTS current_frame_to_seek with
      | none => .failed
      | some (none, _) => .failed
      | some (some pkt, frame_id_out) =>
        match hasKeyFrameNalType codec_id (some pkt) with
        | .error e => .thrown e
        | .ok true =>
          if frame_id_to_seek < frame_id_out then
            seekGopLoop seekWithTS codec_id frame_id_to_seek fuel (current_frame_to_seek - 1)
          else .found pkt frame_id_out
        | .ok false =>
          if frame_id_out - 1 < 0 then .failed
          else seekGopLoop seekWithTS codec_id frame_id_to_seek fuel (frame_id_out - 1)

/-- Embedding of `PyNvGopDemuxer::SeekGopFirstFrameNoMap`: VFR input is a
hard domain error; otherwise run the search loop starting at the
requested frame. -/
def SeekGopFirstFrameNoMap (isVFR : Bool)
    (seekWithTS : Int → Option (Option (List Nat) × Int)) (codec_id : CodecId)
    (fuel : Nat) (frame_id_to_seek : Int) : SeekOutcome :=
  if isVFR then .vfrUnsupported
  else seekGopLoop seekWithTS codec_id frame_id_to_seek fuel frame_id_to_seek

/-- The search loop only succeeds on a packet the flag-less classifier
accepts, with a resolved frame id at or before the target. -/
theorem seekGopLoop_found_sound (seekWithTS : Int → Option (Option (List Nat) × Int))
    (codec_id : CodecId) (target : Int) :
    ∀ (fuel : Nat) (current : Int) (pkt : List Nat) (fid : Int),
      seekGopLoop seekWithTS codec_id target fuel current = .found pkt fid →
      hasKeyFrameNalType codec_id (some pkt) = .ok true ∧ fid ≤ target := by
  intro fuel
  induction fuel with
  | zero =>
    intro current pkt fid h
    exact absurd h (by simp [seekGopLoop])
  | succ n ih =>
    intro current pkt fid h
    rw [seekGopLoop] at h
    by_cases hc : current < 0
    · rw [if_pos hc] at h
      cases h
    · rw [if_neg hc] at h
      cases hs : seekWithTS current with
      | none => simp [hs] at h
      | some pr =>
        obtain ⟨pv, fo⟩ := pr
        cases pv with
        | none => simp [hs] at h
        | some pkt' =>
          simp only [hs] at h
          cases hkf : hasKeyFrameNalType codec_id (some pkt') with
          | error e => simp [hkf] at h
          | ok b =>
            simp only [hkf] at h
            cases b with
            | true =>
              by_cases hgt : target < fo
              · rw [if_pos hgt] at h
                exact ih _ _ _ h
              · rw [if_neg hgt] at h
                cases h
                exact ⟨hkf, by omega⟩
            | false =>
              by_cases hneg : fo - 1 < 0
              · rw [if_pos hneg] at h
                cases h
              · rw [if_neg hneg] at h
                exact ih _ _ _ h

/-- C9. Whenever the unmapped seek returns success, the returned packet
is classified as a GOP start by the flag-less predicate and the resolved
frame id is at or before the originally requested target. -/
theorem seekGopFirstFrameNoMap_found_sound (isVFR : Bool)
    (seekWithTS : Int → Option (Option (List Nat) × Int)) (codec_id : CodecId)
    (fuel : Nat) (frame_id_to_seek : Int) (pkt : List Nat) (frame_id_out : Int)
    (h : SeekGopFirstFrameNoMap isVFR seekWithTS codec_id fuel frame_id_to_seek =
      .found pkt frame_id_out) :
    hasKeyFrameNalType codec_id (some pkt) = .ok true ∧ frame_id_out ≤ frame_id_to_seek := by
  unfold SeekGopFirstFrameNoMap at h
  by_cases hv : isVFR
  · rw [if_pos hv] at h
    cases h
  · rw [if_neg hv] at h
    exact seekGopLoop_found_sound seekWithTS codec_id frame_id_to_seek fuel
      frame_id_to_seek pkt frame_id_out h

/-- C9 witness: a container whose seek always lands on an H.264 SPS
packet at frame 0 makes the search succeed from target 0, and the
returned packet/frame satisfy the soundness conclusion. -/
theorem seekGopFirstFrameNoMap_found_sound_witness :
    hasKeyFrameNalType .h264 (some [0, 0, 1, 7, 0]) = .ok true ∧ (0 : Int) ≤ 0 :=
  seekGopFirstFrameNoMap_found_sound false
    (fun _ => some (some [0, 0, 1, 7, 0], 0)) .h264 1 0 [0, 0, 1, 7, 0] 0 rfl

/-- Guarded read of `key_frame_ids` at a signed iterator offset: the
in-bounds dereference of `*(begin + i)`; a negative or past-the-end
offset (undefined behaviour in the source) yields no value. -/
def listGetI (l : List Int) (i : Int) : Option Int :=
  if 0 ≤ i then l.get? i.toNat else none

/-- Index returned by `std::lower_bound(l.begin(), l.end(), x)` on a list
sorted ascending: the first position whose element is not less than `x`
(linear form of the binary search; extensionally equal on the sorted
lists the source applies it to). -/
def lowerBoundIdx (l : List Int) (x : Int) : Nat :=
  match l with
  | [] => 0
  | a :: t => if a < x then lowerBoundIdx t x + 1 else 0

/-- Embedding of `PyNvGopDemuxer::getKeyFrameId`: `lower_bound` over the
key-frame table, return `*cur_key_it` when it equals `frame_id`, else
`*(cur_key_it - 1)`; both unguarded dereferences become guarded reads. -/
def getKeyFrameId (key_frame_ids : List Int) (frame_id : Int) : Option Int :=
  let i : Int := (lowerBoundIdx key_frame_ids frame_id : Int)
  match listGetI key_frame_ids i with
  | some v => if v = frame_id then some v else listGetI key_frame_ids (i - 1)
  | none => none

/-- Reading at a natural offset is the plain list read. -/
theorem listGetI_natCast (l : List Int) (n : Nat) : listGetI l (n : Int) = l.get? n := by
  simp [listGetI]

/-- Reading one slot before a positive natural offset. -/
theorem listGetI_natCast_sub_one (l : List Int) (n : Nat) (h : 1 ≤ n) :
    listGetI l ((n : Int) - 1) = l.get? (n - 1) := by
  have heq : ((n : Int) - 1) = ((n - 1 : Nat) : Int) := by omega
  rw [heq, listGetI_natCast]

/-- `lowerBoundIdx` never passes the end of the list. -/
theorem lowerBoundIdx_le_length (l : List Int) (x : Int) : lowerBoundIdx l x ≤ l.length := by
  induction l with
  | nil => exact Nat.le_refl 0
  | cons a t ih =>
    simp only [lowerBoundIdx, List.length_cons]
    by_cases ha : a < x
    · rw [if_pos ha]; omega
    · rw [if_neg ha]; omega

/-- Every element strictly before the `lowerBoundIdx` position is below
the probe (by construction of the scan, for any input list). -/
theorem get_lt_of_lt_lowerBoundIdx (l : List Int) (x : Int) :
    ∀ (j : Nat) (u : Int), j < lowerBoundIdx l x → l.get? j = some u → u < x := by
  induction l with
  | nil => intro j u hj _; simp [lowerBoundIdx] at hj
  | cons a t ih =>
    intro j u hj hg
    simp only [lowerBoundIdx] at hj
    by_cases ha : a < x
    · rw [if_pos ha] at hj
      cases j with
      | zero =>
        simp only [List.get?] at hg
        cases hg
        exact ha
      | succ m =>
        simp only [List.get?] at hg
        exact ih m u (by omega) hg
    · rw [if_neg ha] at hj
      omega

/-- The element at the `lowerBoundIdx` position (when in bounds) is not
below the probe. -/
theorem le_get_lowerBoundIdx (l : List Int) (x : Int) :
    ∀ v : Int, l.get? (lowerBoundIdx l x) = some v → x ≤ v := by
  induction l with
  | nil => intro v hv; simp [lowerBoundIdx] at hv
  | cons a t ih =>
    intro v hv
    simp only [lowerBoundIdx] at hv
    by_cases ha : a < x
    · rw [if_pos ha] at hv
      simp only [List.get?] at hv
      exact ih v hv
    · rw [if_neg ha] at hv
      simp only [List.get?] at hv
      cases hv
      omega

/-- A strictly sorted list is monotone under positional reads. -/
theorem pairwise_get?_le (l : List Int) (hp : List.Pairwise (· < ·) l)
    (j k : Nat) (hjk : j ≤ k) (u w : Int)
    (hu : l.get? j = some u) (hw : l.get? k = some w) : u ≤ w := by
  rcases Nat.lt_or_ge k j with h | h
  · omega
  · rcases Nat.eq_or_lt_of_le h with heq | hlt
    · subst heq
      rw [hu] at hw
      cases hw
      exact le_refl _
    · obtain ⟨hj, hju⟩ := List.get?_eq_some.mp hu
      obtain ⟨hk, hkw⟩ := List.get?_eq_some.mp hw
      have hrel := List.pairwise_iff_getElem.mp hp j k hj hk hlt
      rw [List.get_eq_getElem] at hju hkw
      rw [hju, hkw] at hrel
      exact le_of_lt hrel

/-- C10. On a non-empty strictly increasing key-frame table, for a frame
id between the first and last entry `getKeyFrameId` performs only
in-bounds reads and returns the greatest key-frame id not exceeding the
frame id; for a frame id outside that range the source's unguarded
dereference is out of bounds and the guarded embedding yields no
value. -/
theorem getKeyFrameId_correct (key_frame_ids : List Int) (frame_id h0 hl : Int)
    (hchain : List.Chain' (· < ·) key_frame_ids)
    (hhead : key_frame_ids.head? = some h0)
    (hlast : key_frame_ids.getLast? = some hl) :
    ((h0 ≤ frame_id ∧ frame_id ≤ hl) →
      ∃ g, getKeyFrameId key_frame_ids frame_id = some g ∧ g ∈ key_frame_ids ∧
        g ≤ frame_id ∧ ∀ k ∈ key_frame_ids, k ≤ frame_id → k ≤ g) ∧
    ((frame_id < h0 ∨ hl < frame_id) →
      getKeyFrameId key_frame_ids frame_id = none) := by
  have hp : List.Pairwise (· < ·) key_frame_ids := List.chain'_iff_pairwise.mp hchain
  have hne : key_frame_ids ≠ [] := by
    intro hnil
    rw [hnil] at hhead
    cases hhead
  have hpos : 0 < key_frame_ids.length := List.length_pos.mpr hne
  have hlg : key_frame_ids.get? (key_frame_ids.length - 1) = some hl := by
    rw [← List.getLast?_eq_get?]
    exact hlast
  have hhg : key_frame_ids.get? 0 = some h0 := by
    cases key_frame_ids with
    | nil => cases hhead
    | cons a t =>
      simp only [List.head?] at hhead
      cases hhead
      rfl
  constructor
  · rintro ⟨hge, hle⟩
    have hlen : lowerBoundIdx key_frame_ids frame_id < key_frame_ids.length := by
      by_contra hge'
      push_neg at hge'
      have hllt := get_lt_of_lt_lowerBoundIdx key_frame_ids frame_id
        (key_frame_ids.length - 1) hl (by omega) hlg
      omega
    obtain ⟨v, hv⟩ : ∃ v, key_frame_ids.get? (lowerBoundIdx key_frame_ids frame_id) = some v :=
      ⟨_, List.get?_eq_get hlen⟩
    have hxv : frame_id ≤ v := le_get_lowerBoundIdx _ _ v hv
    by_cases hveq : v = frame_id
    · refine ⟨frame_id, ?_, ?_, le_refl _, ?_⟩
      · simp only [getKeyFrameId, listGetI_natCast, hv]
        rw [if_pos hveq, hveq]
      · subst hveq
        exact List.get?_mem hv
      · intro k _ hkle
        exact hkle
    · have hvgt : frame_id < v := lt_of_le_of_ne hxv (fun h => hveq h.symm)
      have hi0 : lowerBoundIdx key_frame_ids frame_id ≠ 0 := by
        intro h0'
        rw [h0', hhg] at hv
        cases hv
        omega
      obtain ⟨p, hpget⟩ :
          ∃ p, key_frame_ids.get? (lowerBoundIdx key_frame_ids frame_id - 1) = some p :=
        ⟨_, List.get?_eq_get (by omega)⟩
      have hplt : p < frame_id :=
        get_lt_of_lt_lowerBoundIdx _ _ _ p (by omega) hpget
      refine ⟨p, ?_, List.get?_mem hpget, le_of_lt hplt, ?_⟩
      · simp only [getKeyFrameId, listGetI_natCast, hv]
        rw [if_neg hveq,
          listGetI_natCast_sub_one _ _ (by omega), hpget]
      · intro k hk hkle
        obtain ⟨j, hj⟩ := List.mem_iff_get?.mp hk
        rcases Nat.lt_or_ge j (lowerBoundIdx key_frame_ids frame_id) with hjlt | hjge
        · exact pairwise_get?_le _ hp j (lowerBoundIdx key_frame_ids frame_id - 1)
            (by omega) k p hj hpget
        · have hvk : v ≤ k := pairwise_get?_le _ hp
            (lowerBoundIdx key_frame_ids frame_id) j hjge v k hv hj
          omega
  · intro hout
    rcases hout with hlt | hgt
    · have hi : lowerBoundIdx key_frame_ids frame_id = 0 := by
        cases key_frame_ids with
        | nil => cases hhead
        | cons a t =>
          simp only [List.head?] at hhead
          cases hhead
          simp only [lowerBoundIdx]
          rw [if_neg (by omega)]
      simp only [getKeyFrameId, listGetI_natCast, hi, hhg]
      rw [if_neg (by omega : ¬h0 = frame_id)]
      simp [listGetI]
    · have hi : lowerBoundIdx key_frame_ids frame_id = key_frame_ids.length := by
        by_contra hne'
        have hlt2 : lowerBoundIdx key_frame_ids frame_id < key_frame_ids.length :=
          lt_of_le_of_ne (lowerBoundIdx_le_length _ _) hne'
        obtain ⟨v, hv⟩ :
            ∃ v, key_frame_ids.get? (lowerBoundIdx key_frame_ids frame_id) = some v :=
          ⟨_, List.get?_eq_get hlt2⟩
        have h1 : frame_id ≤ v := le_get_lowerBoundIdx _ _ v hv
        have h2 : v ≤ hl := pairwise_get?_le _ hp _ _ (by omega) v hl hv hlg
        omega
      have hnone : key_frame_ids.get? key_frame_ids.length = none :=
        List.get?_eq_none.mpr (le_refl _)
      simp only [getKeyFrameId, listGetI_natCast, hi, hnone]

/-- C10 witness: on the table `[0, 4, 8]`, frame 6 resolves to key frame
4 (greatest entry not exceeding 6) and frame 9, past the last entry,
resolves to no value (the source would dereference `end()`). -/
theorem getKeyFrameId_correct_witness :
    getKeyFrameId [0, 4, 8] 6 = some 4 ∧ getKeyFrameId [0, 4, 8] 9 = none := by
  have hch : List.Chain' (· < ·) [(0 : Int), 4, 8] :=
    List.chain'_cons.mpr ⟨by norm_num,
      List.chain'_cons.mpr ⟨by norm_num, List.chain'_singleton _⟩⟩
  constructor
  · obtain ⟨g, hg, hmem, hgle, hmax⟩ :=
      (getKeyFrameId_correct [0, 4, 8] 6 0 8 hch rfl rfl).1 (by omega)
    have h4 : (4 : Int) ≤ g := hmax 4 (by simp) (by omega)
    have hg4 : g = 4 := by
      simp only [List.mem_cons, List.not_mem_nil, or_false] at hmem
      rcases hmem with h | h | h <;> omega
    rw [hg4] at hg
    exact hg
  · exact (getKeyFrameId_correct [0, 4, 8] 9 0 8 hch rfl rfl).2 (by omega)
